import Mathlib

/-!
# Verification of the song-request bot core

Shallow embedding of the queue engine (`QueueManager`), the token ledger
(`VIPTokenService`), the request-parsing heuristics
(`CustomsforgeService.parseRequest`, `CommandProcessor` helpers) and the two
chat request handlers (`handleRequest`, `handleVIPRequest`), together with
theorems settling the spec claims about them.

Modelling conventions:
* JS `number` timestamps (milliseconds since epoch) are `Nat`, threaded as an
  explicit `now` parameter wherever the source calls `Date.now()` / `new Date()`.
* JS float division `(Date.now() - last) / 1000` is modelled exactly in `ℚ`
  (the involved magnitudes are far below 2^53, so the float arithmetic of the
  source is exact except for `Math.ceil`, which is `Int.ceil` here).
* JS `Map` and plain objects used as string-keyed dictionaries are association
  lists preserving insertion order, as JS does; `set`/assignment updates the
  entry in place or appends, `delete` removes it.
* Request ids (`Date.now() + random suffix` in the source, used only as opaque
  unique tokens) are modelled by a fresh counter `nextId`.
* Network search (`searchSong`) is an oracle parameter `search : String → SearchResult`.
-/

namespace RequestBot

/-! ## Data model (src/types/index.ts) -/

inductive Platform
  | twitch
  | youtube
deriving DecidableEq, Repr

inductive Status
  | pending
  | playing
  | completed
  | skipped
deriving DecidableEq, Repr

structure SongInfo where
  artist : String
  title : String
deriving DecidableEq, Repr

structure SongRequest where
  id : Nat
  song : SongInfo
  requestedBy : String
  platform : Platform
  requestedAt : Nat
  status : Status
  isVIP : Bool
deriving DecidableEq, Repr

def platformKey : Platform → String
  | .twitch => "twitch"
  | .youtube => "youtube"

/-! ## String helpers shared by the parsing and scoring code -/

def jsIncludesAux (pat : List Char) : List Char → Bool
  | [] => pat.isEmpty
  | c :: cs => pat.isPrefixOf (c :: cs) || jsIncludesAux pat cs

/-- JS `String.prototype.includes` (case-sensitive substring test). -/
def jsIncludes (s pat : String) : Bool :=
  jsIncludesAux pat.data s.data

/-- JS `String.prototype.trim`, modelled on the character list. -/
def jsTrim (s : String) : String :=
  String.mk (((s.data.dropWhile Char.isWhitespace).reverse.dropWhile
    Char.isWhitespace).reverse)

/-- JS `String.prototype.toLowerCase` (ASCII, per-character `Char.toLower`). -/
def jsToLower (s : String) : String :=
  String.mk (s.data.map Char.toLower)

/-- `s[0]` on a non-empty string. -/
def firstChar (s : String) : Char :=
  s.data.headD 'A'

/-- `split(' - ')`: cut at each leftmost, non-overlapping occurrence. -/
def splitDashAux : List Char → List (List Char)
  | ' ' :: '-' :: ' ' :: rest => [] :: splitDashAux rest
  | c :: rest =>
      match splitDashAux rest with
      | t :: ts => (c :: t) :: ts
      | [] => [[c]]
  | [] => [[]]

def splitDash (s : String) : List String :=
  (splitDashAux s.data).map String.mk

def splitWsAux : List Char → List (List Char)
  | [] => [[]]
  | c :: rest =>
      if c.isWhitespace then [] :: splitWsAux rest
      else
        match splitWsAux rest with
        | t :: ts => (c :: t) :: ts
        | [] => [[c]]

/-- `split(/\s+/)` with empty pieces discarded (every use in the source
immediately filters the pieces, with `filter(Boolean)` or a length bound). -/
def splitWs (s : String) : List String :=
  ((splitWsAux s.data).map String.mk).filter (fun w => w ≠ "")

/-! ## Queue engine (QueueManager) -/

/-- State of a `QueueManager` instance.  `nextId` models the id generator. -/
structure QueueState where
  requests : List SongRequest
  history : List SongRequest
  userCooldowns : List (String × Nat)
  maxRequestsPerUser : Nat
  cooldownSeconds : Nat
  nextId : Nat
deriving DecidableEq, Repr

def initQueue (maxRequestsPerUser cooldownSeconds : Nat) : QueueState :=
  { requests := [], history := [], userCooldowns := [],
    maxRequestsPerUser, cooldownSeconds, nextId := 0 }

/-- `` `${platform}:${userId}` `` -/
def userKey (platform : Platform) (userId : String) : String :=
  platformKey platform ++ ":" ++ userId

/-- `Map.get` on an insertion-ordered association list. -/
def mapGet (m : List (String × Nat)) (k : String) : Option Nat :=
  (m.find? (fun e => e.1 == k)).map (·.2)

/-- `Map.set`: update the (unique) entry in place if present, else append. -/
def mapSet : List (String × Nat) → String → Nat → List (String × Nat)
  | [], k, v => [(k, v)]
  | e :: es, k, v => if e.1 == k then (k, v) :: es else e :: mapSet es k v

/-- Structured form of the denial reasons produced by `canUserRequest`. -/
inductive DenyReason
  | cooldown (remainingSeconds : Int)
  | tooManyPending (maxRequests : Nat)
deriving DecidableEq, Repr

structure CanRequestResult where
  allowed : Bool
  reason : Option DenyReason
deriving DecidableEq, Repr

/-- `QueueManager.canUserRequest`.  Note that the pending-request count filters
on `r.requestedBy === userId` exactly as the source does, although
`addRequest` stores the *username* in `requestedBy`. -/
def canUserRequest (s : QueueState) (now : Nat) (userId : String)
    (platform : Platform) : CanRequestResult :=
  let cooldownRemaining : Option Int :=
    match mapGet s.userCooldowns (userKey platform userId) with
    | some last =>
        let elapsed : ℚ := ((now : ℚ) - (last : ℚ)) / 1000
        if elapsed < (s.cooldownSeconds : ℚ) then
          some ⌈(s.cooldownSeconds : ℚ) - elapsed⌉
        else none
    | none => none
  match cooldownRemaining with
  | some remaining => { allowed := false, reason := some (.cooldown remaining) }
  | none =>
      let userPending := s.requests.filter fun r =>
        r.requestedBy == userId && r.platform == platform && r.status == Status.pending
      if s.maxRequestsPerUser ≤ userPending.length then
        { allowed := false, reason := some (.tooManyPending s.maxRequestsPerUser) }
      else
        { allowed := true, reason := none }

/-- `Array.prototype.reduce` computing the index of the last pending VIP
request (`-1` if none), carrying the running index explicitly. -/
def lastVIPIdxAux : List SongRequest → Int → Int → Int
  | [], _, last => last
  | r :: rs, i, last =>
      lastVIPIdxAux rs (i + 1)
        (if r.status == Status.pending && r.isVIP then i else last)

def lastVIPIndex (l : List SongRequest) : Int :=
  lastVIPIdxAux l 0 (-1)

/-- `Array.prototype.splice(i, 0, a)`: insert `a` at index `i`
(appending when `i ≥ length`). -/
def spliceInsert (l : List α) (i : Nat) (a : α) : List α :=
  l.take i ++ a :: l.drop i

/-- `QueueManager.addRequest`.  Returns the created request and the new state. -/
def addRequest (s : QueueState) (now : Nat) (song : SongInfo)
    (userId username : String) (platform : Platform) (isVIP : Bool) :
    SongRequest × QueueState :=
  let request : SongRequest :=
    { id := s.nextId, song, requestedBy := username, platform,
      requestedAt := now, status := Status.pending, isVIP }
  let requests :=
    if isVIP then
      spliceInsert s.requests (lastVIPIndex s.requests + 1).toNat request
    else
      s.requests ++ [request]
  (request,
   { s with requests,
            userCooldowns := mapSet s.userCooldowns (userKey platform userId) now,
            nextId := s.nextId + 1 })

/-- `QueueManager.getPendingRequests`. -/
def getPendingRequests (s : QueueState) : List SongRequest :=
  s.requests.filter (fun r => r.status == Status.pending)

/-- `QueueManager.getUserRequests` (filters on the stored `requestedBy`,
i.e. the username). -/
def getUserRequests (s : QueueState) (username : String) (platform : Platform) :
    List SongRequest :=
  s.requests.filter fun r =>
    r.requestedBy == username && r.platform == platform && r.status == Status.pending

/-- `QueueManager.getQueuePosition` (`findIndex + 1`, so `0` when absent). -/
def getQueuePosition (s : QueueState) (requestId : Nat) : Nat :=
  match (getPendingRequests s).findIdx? (fun r => r.id == requestId) with
  | some i => i + 1
  | none => 0

def getQueueLength (s : QueueState) : Nat :=
  (getPendingRequests s).length

/-- In-place status mutation of the object returned by
`this.requests.find(...)`: only the first entry with the id changes. -/
def setStatusFirst : List SongRequest → Nat → Status → List SongRequest
  | [], _, _ => []
  | r :: rs, requestId, st =>
      if r.id == requestId then { r with status := st } :: rs
      else r :: setStatusFirst rs requestId st

/-- `QueueManager.markPlaying`. -/
def markPlaying (s : QueueState) (requestId : Nat) :
    Option SongRequest × QueueState :=
  match s.requests.find? (fun r => r.id == requestId) with
  | some r =>
      (some { r with status := Status.playing },
       { s with requests := setStatusFirst s.requests requestId Status.playing })
  | none => (none, s)

/-- `QueueManager.markCompleted`: the found object is mutated to `completed`
and pushed on `history`; `requests` is then re-filtered by id. -/
def markCompleted (s : QueueState) (requestId : Nat) :
    Option SongRequest × QueueState :=
  match s.requests.find? (fun r => r.id == requestId) with
  | some r =>
      (some { r with status := Status.completed },
       { s with
          requests := s.requests.filter (fun q => !(q.id == requestId)),
          history := s.history ++ [{ r with status := Status.completed }] })
  | none => (none, s)

/-- `QueueManager.skipRequest`. -/
def skipRequest (s : QueueState) (requestId : Nat) :
    Option SongRequest × QueueState :=
  match s.requests.find? (fun r => r.id == requestId) with
  | some r =>
      (some { r with status := Status.skipped },
       { s with
          requests := s.requests.filter (fun q => !(q.id == requestId)),
          history := s.history ++ [{ r with status := Status.skipped }] })
  | none => (none, s)

/-- `QueueManager.getNextRequest`. -/
def getNextRequest (s : QueueState) : Option SongRequest :=
  (getPendingRequests s).head?

/-- `QueueManager.popNextRequest`.  The source returns the very object that
`markPlaying` just mutated, hence the returned request carries status
`playing`. -/
def popNextRequest (s : QueueState) : Option SongRequest × QueueState :=
  match getNextRequest s with
  | some next =>
      (some { next with status := Status.playing }, (markPlaying s next.id).2)
  | none => (none, s)

/-- `QueueManager.clearQueue`. -/
def clearQueue (s : QueueState) : Nat × QueueState :=
  (s.requests.length,
   { s with requests := [],
            history := s.history ++ s.requests.map fun r => { r with status := Status.skipped } })

/-- `QueueManager.removeUserRequest`. -/
def removeUserRequest (s : QueueState) (username : String) (platform : Platform) :
    Option SongRequest × QueueState :=
  match (getUserRequests s username platform).getLast? with
  | some r => skipRequest s r.id
  | none => (none, s)

/-- `QueueManager.removePendingAt`. -/
def removePendingAt (s : QueueState) (index : Nat) :
    Option SongRequest × QueueState :=
  match (getPendingRequests s).get? index with
  | some r => skipRequest s r.id
  | none => (none, s)

/-- `QueueManager.isSongInQueue`. -/
def isSongInQueue (s : QueueState) (artist title : String) : Bool :=
  s.requests.any fun r =>
    r.status == Status.pending &&
    jsToLower r.song.artist == jsToLower artist &&
    jsToLower r.song.title == jsToLower title

/-- The queue operations other than `reorderQueue` (`Reorder`), used to define
the states reachable "without Reorder". -/
inductive QOp
  | add (song : SongInfo) (userId username : String) (platform : Platform) (isVIP : Bool)
  | playing (requestId : Nat)
  | complete (requestId : Nat)
  | skip (requestId : Nat)
  | pop
  | clear
  | removeUser (username : String) (platform : Platform)
  | removeAt (index : Nat)

def applyQOp (s : QueueState) (now : Nat) : QOp → QueueState
  | .add song userId username platform isVIP =>
      (addRequest s now song userId username platform isVIP).2
  | .playing requestId => (markPlaying s requestId).2
  | .complete requestId => (markCompleted s requestId).2
  | .skip requestId => (skipRequest s requestId).2
  | .pop => (popNextRequest s).2
  | .clear => (clearQueue s).2
  | .removeUser username platform => (removeUserRequest s username platform).2
  | .removeAt index => (removePendingAt s index).2

/-- Queue states reachable from a fresh `QueueManager` without `reorderQueue`. -/
inductive QueueReachable : QueueState → Prop
  | init (maxRequestsPerUser cooldownSeconds : Nat) :
      QueueReachable (initQueue maxRequestsPerUser cooldownSeconds)
  | step (s : QueueState) (now : Nat) (op : QOp) :
      QueueReachable s → QueueReachable (applyQOp s now op)

/-- The priority-lane ordering invariant on a pending list: no non-VIP entry
precedes a VIP entry. -/
def VipFirst (l : List SongRequest) : Prop :=
  l.Pairwise fun a b => b.isVIP = true → a.isVIP = true

/-! ## Token ledger (VIPTokenService) -/

inductive TxType
  | subscription
  | bits
  | superchat
  | manual
  | spent
deriving DecidableEq, Repr

/-- `VIPTransaction` (the source field `type` is `txType` here). -/
structure VIPTransaction where
  timestamp : Nat
  txType : TxType
  amount : Int
  description : String
deriving DecidableEq, Repr

structure VIPUser where
  platform : Platform
  platformUserId : String
  displayName : String
  tokens : Int
  totalEarned : Int
  lastUpdated : Nat
  history : List VIPTransaction
deriving DecidableEq, Repr

/-- `VIPTokenRates`.  Monetary thresholds are exact rationals
(`youtubeSuperChatMinimum` defaults to `2.50`). -/
structure VIPTokenRates where
  twitchTier1 : Int
  twitchTier2 : Int
  twitchTier3 : Int
  twitchPrime : Int
  twitchBitsAmount : Int
  twitchBitsTokens : Int
  youtubeMember : Int
  youtubeSuperChat : Int
  youtubeSuperChatMinimum : ℚ
deriving DecidableEq, Repr

def defaultRates : VIPTokenRates :=
  { twitchTier1 := 1, twitchTier2 := 2, twitchTier3 := 4, twitchPrime := 1,
    twitchBitsAmount := 250, twitchBitsTokens := 1,
    youtubeMember := 1, youtubeSuperChat := 1, youtubeSuperChatMinimum := 5/2 }

/-- `VIPTokenData`: the `users` object keeps string keys in insertion order. -/
structure VIPState where
  users : List (String × VIPUser)
  rates : VIPTokenRates
deriving DecidableEq, Repr

def vipInit : VIPState := { users := [], rates := defaultRates }

/-- `VIPTokenService.getUserKey`. -/
def getUserKey (platform : Platform) (platformUserId : String) : String :=
  platformKey platform ++ ":" ++ platformUserId

/-- Object property read `this.data.users[key]`. -/
def usersGet (users : List (String × VIPUser)) (key : String) : Option VIPUser :=
  (users.find? (fun e => e.1 == key)).map (·.2)

/-- Object property write `this.data.users[key] = u`: updates the (unique)
entry in place when the key exists, appends otherwise (JS insertion-order
semantics). -/
def usersSet : List (String × VIPUser) → String → VIPUser → List (String × VIPUser)
  | [], key, u => [(key, u)]
  | e :: es, key, u => if e.1 == key then (key, u) :: es else e :: usersSet es key u

/-- `delete this.data.users[key]`. -/
def usersDelete (users : List (String × VIPUser)) (key : String) :
    List (String × VIPUser) :=
  users.filter (fun e => !(e.1 == key))

/-- `VIPTokenService.findUserByDisplayName` (first entry in object order). -/
def findUserByDisplayName (st : VIPState) (platform : Platform) (displayName : String) :
    Option (String × VIPUser) :=
  st.users.find? fun e =>
    e.2.platform == platform && jsToLower e.2.displayName == jsToLower displayName

/-- `VIPTokenService.getOrCreateUser`.  Returns the key under which the
(source-mutable) user object now lives, the user, and the new state. -/
def getOrCreateUser (st : VIPState) (now : Nat) (platform : Platform)
    (platformUserId displayName : String) : String × VIPUser × VIPState :=
  let key := getUserKey platform platformUserId
  match usersGet st.users key with
  | some u =>
      let u' := { u with displayName }
      (key, u', { st with users := usersSet st.users key u' })
  | none =>
      match findUserByDisplayName st platform displayName with
      | some (oldKey, u) =>
          let migrated : VIPUser :=
            { u with platformUserId, displayName, lastUpdated := now }
          (key, migrated,
           { st with users := usersSet (usersDelete st.users oldKey) key migrated })
      | none =>
          let u : VIPUser :=
            { platform, platformUserId, displayName, tokens := 0, totalEarned := 0,
              lastUpdated := now, history := [] }
          (key, u, { st with users := usersSet st.users key u })

/-- `history.slice(-100)` applied when the history exceeds 100 entries. -/
def trimHistory (h : List VIPTransaction) : List VIPTransaction :=
  if 100 < h.length then h.drop (h.length - 100) else h

/-- `VIPTokenService.awardTokens`. -/
def awardTokens (st : VIPState) (now : Nat) (platform : Platform)
    (platformUserId displayName : String) (amount : Int) (txType : TxType)
    (description : String) : VIPUser × VIPState :=
  let (key, user, st') := getOrCreateUser st now platform platformUserId displayName
  let u' : VIPUser :=
    { user with
        tokens := user.tokens + amount,
        totalEarned := user.totalEarned + amount,
        lastUpdated := now,
        history := trimHistory (user.history ++ [⟨now, txType, amount, description⟩]) }
  (u', { st' with users := usersSet st'.users key u' })

inductive SpendError
  | noAccount
  | notEnough (has needed : Int)
deriving DecidableEq, Repr

structure SpendResult where
  success : Bool
  remainingTokens : Int
  error : Option SpendError
deriving DecidableEq, Repr

/-- `VIPTokenService.spendTokens`.  Note: no history trimming here. -/
def spendTokens (st : VIPState) (now : Nat) (platform : Platform)
    (platformUserId : String) (amount : Int) : SpendResult × VIPState :=
  let key := getUserKey platform platformUserId
  match usersGet st.users key with
  | none => ({ success := false, remainingTokens := 0, error := some .noAccount }, st)
  | some user =>
      if user.tokens < amount then
        ({ success := false, remainingTokens := user.tokens,
           error := some (.notEnough user.tokens amount) }, st)
      else
        let u' : VIPUser :=
          { user with
              tokens := user.tokens - amount,
              lastUpdated := now,
              history := user.history ++ [⟨now, .spent, -amount, "VIP request"⟩] }
        ({ success := true, remainingTokens := u'.tokens, error := none },
         { st with users := usersSet st.users key u' })

/-- `VIPTokenService.getBalance` (`?.tokens || 0`). -/
def getBalance (st : VIPState) (platform : Platform) (platformUserId : String) : Int :=
  match usersGet st.users (getUserKey platform platformUserId) with
  | some u => u.tokens
  | none => 0

/-- `VIPTokenService.findOrCreateByUsername`. -/
def findOrCreateByUsername (st : VIPState) (now : Nat) (platform : Platform)
    (username : String) : String × VIPUser × VIPState :=
  match findUserByDisplayName st platform username with
  | some (key, u) => (key, u, st)
  | none => getOrCreateUser st now platform (jsToLower username) username

/-- `VIPTokenService.awardTokensByUsername`. -/
def awardTokensByUsername (st : VIPState) (now : Nat) (platform : Platform)
    (username : String) (amount : Int) (description : String) : VIPUser × VIPState :=
  let (key, user, st') := findOrCreateByUsername st now platform username
  let u' : VIPUser :=
    { user with
        tokens := user.tokens + amount,
        totalEarned := user.totalEarned + amount,
        lastUpdated := now,
        history := trimHistory (user.history ++ [⟨now, .manual, amount, description⟩]) }
  (u', { st' with users := usersSet st'.users key u' })

/-- `VIPTokenService.setTokensByUsername`.  Note: no trimming, and the target
value is written unvalidated. -/
def setTokensByUsername (st : VIPState) (now : Nat) (platform : Platform)
    (username : String) (tokens : Int) : VIPUser × VIPState :=
  let (key, user, st') := findOrCreateByUsername st now platform username
  let u' : VIPUser :=
    { user with
        tokens := tokens,
        lastUpdated := now,
        history := user.history ++ [⟨now, .manual, tokens - user.tokens, "Set via GUI"⟩] }
  (u', { st' with users := usersSet st'.users key u' })

/-- `VIPTokenService.setUserTokens`.  Note: no trimming, unvalidated target. -/
def setUserTokens (st : VIPState) (now : Nat) (platform : Platform)
    (platformUserId displayName : String) (tokens : Int) : VIPUser × VIPState :=
  let (key, user, st') := getOrCreateUser st now platform platformUserId displayName
  let u' : VIPUser :=
    { user with
        tokens := tokens,
        lastUpdated := now,
        history := user.history ++ [⟨now, .manual, tokens - user.tokens, "Manual adjustment"⟩] }
  (u', { st' with users := usersSet st'.users key u' })

inductive SubTier
  | prime
  | t1000
  | t2000
  | t3000
deriving DecidableEq, Repr

/-- `VIPTokenService.handleTwitchSubscription`. -/
def handleTwitchSubscription (st : VIPState) (now : Nat) (userId displayName : String)
    (tier : SubTier) : VIPUser × VIPState :=
  let tokens : Int :=
    match tier with
    | .prime => st.rates.twitchPrime
    | .t1000 => st.rates.twitchTier1
    | .t2000 => st.rates.twitchTier2
    | .t3000 => st.rates.twitchTier3
  awardTokens st now .twitch userId displayName tokens .subscription "Twitch subscription"

/-- `VIPTokenService.handleTwitchBits`.  `Math.floor(bits / threshold)` is
floor division (`Int.fdiv`); the source would produce `Infinity` on a zero
threshold, where `Int.fdiv` yields `0` — the claims only concern positive
thresholds. -/
def handleTwitchBits (st : VIPState) (now : Nat) (userId displayName : String)
    (bits : Int) : Option VIPUser × VIPState :=
  if bits < st.rates.twitchBitsAmount then (none, st)
  else
    let tokens := (Int.fdiv bits st.rates.twitchBitsAmount) * st.rates.twitchBitsTokens
    let (u, st') := awardTokens st now .twitch userId displayName tokens .bits "Cheered bits"
    (some u, st')

/-- `VIPTokenService.handleYouTubeMembership`. -/
def handleYouTubeMembership (st : VIPState) (now : Nat) (channelId displayName : String) :
    VIPUser × VIPState :=
  awardTokens st now .youtube channelId displayName st.rates.youtubeMember
    .subscription "YouTube membership"

/-- `VIPTokenService.handleYouTubeSuperChat` (`amountMicros / 1000000` is exact
in `ℚ`; same zero-threshold caveat as for bits). -/
def handleYouTubeSuperChat (st : VIPState) (now : Nat) (channelId displayName : String)
    (amountMicros : ℚ) : Option VIPUser × VIPState :=
  let amountDollars := amountMicros / 1000000
  if amountDollars < st.rates.youtubeSuperChatMinimum then (none, st)
  else
    let tokens : Int :=
      ⌊amountDollars / st.rates.youtubeSuperChatMinimum⌋ * st.rates.youtubeSuperChat
    let (u, st') :=
      awardTokens st now .youtube channelId displayName tokens .superchat "Super Chat"
    (some u, st')

/-- The ledger operations named by the claims, as a step type over `VIPState`. -/
inductive LOp
  | award (platform : Platform) (platformUserId displayName : String)
      (amount : Int) (txType : TxType) (description : String)
  | spend (platform : Platform) (platformUserId : String) (amount : Int)
  | setTokens (platform : Platform) (platformUserId displayName : String) (tokens : Int)
  | awardByName (platform : Platform) (username : String) (amount : Int) (description : String)
  | setByName (platform : Platform) (username : String) (tokens : Int)
  | subEvent (userId displayName : String) (tier : SubTier)
  | bitsEvent (userId displayName : String) (bits : Int)
  | memberEvent (channelId displayName : String)
  | superChatEvent (channelId displayName : String) (amountMicros : ℚ)

def applyLOp (st : VIPState) (now : Nat) : LOp → VIPState
  | .award p uid name amount t d => (awardTokens st now p uid name amount t d).2
  | .spend p uid amount => (spendTokens st now p uid amount).2
  | .setTokens p uid name tokens => (setUserTokens st now p uid name tokens).2
  | .awardByName p name amount d => (awardTokensByUsername st now p name amount d).2
  | .setByName p name tokens => (setTokensByUsername st now p name tokens).2
  | .subEvent uid name tier => (handleTwitchSubscription st now uid name tier).2
  | .bitsEvent uid name bits => (handleTwitchBits st now uid name bits).2
  | .memberEvent cid name => (handleYouTubeMembership st now cid name).2
  | .superChatEvent cid name micros => (handleYouTubeSuperChat st now cid name micros).2

/-- One position of `/\s+by\s+/i`: at least one whitespace, `by`
case-insensitively, at least one whitespace; returns the characters after the
(greedily consumed) second whitespace run. -/
def byHere (l : List Char) : Option (List Char) :=
  let l₁ := l.dropWhile Char.isWhitespace
  if l₁.length = l.length then none
  else
    match l₁ with
    | b :: y :: rest =>
        if (b == 'b' || b == 'B') && (y == 'y' || y == 'Y') then
          let rest₁ := rest.dropWhile Char.isWhitespace
          if rest₁.length = rest.length then none else some rest₁
        else none
    | _ => none

def hasByAux : List Char → Bool
  | [] => false
  | c :: cs => (byHere (c :: cs)).isSome || hasByAux cs

/-- `/\s+by\s+/i.test(s)`. -/
def testByPattern (s : String) : Bool :=
  hasByAux s.data

/-- `/^(.+?)\s+by\s+(.+)$/i` on a trimmed string: leftmost split into a
non-empty group 1, `\s+by\s+`, and a non-empty group 2.  The source only
matches trimmed text, so the greediness of the final `\s+` and the
newline-exclusion of `.` cannot affect the (subsequently trimmed) groups. -/
def byMatchAux (acc : List Char) : List Char → Option (List Char × List Char)
  | [] => none
  | c :: cs =>
      match byHere cs with
      | some rest =>
          if rest = [] then byMatchAux (acc ++ [c]) cs else some (acc ++ [c], rest)
      | none => byMatchAux (acc ++ [c]) cs

def byMatch (s : String) : Option (String × String) :=
  (byMatchAux [] s.data).map fun g => (String.mk g.1, String.mk g.2)

structure ParsedSong where
  artist : String
  title : String
deriving DecidableEq, Repr

/-- `CustomsforgeService.parseRequest`. -/
def parseRequest (request : String) : Option ParsedSong :=
  let trimmed := jsTrim request
  if trimmed = "" then none
  else
    let dashResult : Option ParsedSong :=
      if jsIncludes trimmed " - " then
        match (splitDash trimmed).map jsTrim with
        | artist :: title :: _ =>
            if artist ≠ "" && title ≠ "" then some ⟨artist, title⟩ else none
        | _ => none
      else none
    match dashResult with
    | some r => some r
    | none =>
        match byMatch trimmed with
        | some (g1, g2) => some ⟨jsTrim g2, jsTrim g1⟩
        | none => some ⟨"", trimmed⟩

/-- `CommandProcessor.guessArtistTitleFromFreeform`.  The source's `[A-Z]`
test and per-character `toUpperCase` comparison act on ASCII
(`Char.isUpper` / `Char.toUpper`). -/
def guessArtistTitleFromFreeform (requestText : String) : ParsedSong :=
  match splitWs (jsTrim requestText) with
  | w1 :: w2 :: rest =>
      let hasAnyUppercase := requestText.data.any Char.isUpper
      if !hasAnyUppercase then
        ⟨w1, String.intercalate " " (w2 :: rest)⟩
      else if rest = [] then
        let w1Cap := (firstChar w1).toUpper == firstChar w1
        let w2Cap := (firstChar w2).toUpper == firstChar w2
        if w1Cap && !w2Cap then ⟨w1, w2⟩ else ⟨"", jsTrim requestText⟩
      else ⟨"", jsTrim requestText⟩
  | _ => ⟨"", jsTrim requestText⟩

/-! ## Best-match scoring and the request handlers (CommandProcessor) -/

/-- `CommandProcessor.findBestMatch` scoring of one candidate.  The source
computes the 70% threshold as `Math.ceil(queryWords.length * 0.7)` in binary
floating point; that equals the exact `⌈7n/10⌉` used here for every length
occurring in the claims (the two differ only where the float product rounds
just above an integer, first at `n = 10`). -/
def matchScore (searchArtist searchTitle : String) (song : SongInfo) : Int :=
  let lowerArtist := jsToLower searchArtist
  let lowerTitle := jsToLower searchTitle
  let fullQuery := jsToLower (jsTrim (searchArtist ++ " " ++ searchTitle))
  let queryWords := (splitWs fullQuery).filter (fun w => 2 < w.length)
  let songArtist := jsToLower song.artist
  let songTitle := jsToLower song.title
  let songCombined := jsTrim (songArtist ++ " " ++ songTitle)
  let artistScore : Int :=
    if songArtist == lowerArtist then 10
    else if lowerArtist ≠ "" && jsIncludes songArtist lowerArtist then 5
    else if lowerArtist ≠ "" && jsIncludes lowerArtist songArtist then 3
    else 0
  let titleScore : Int :=
    if songTitle == lowerTitle then 10
    else if jsIncludes songTitle lowerTitle then 5
    else if jsIncludes lowerTitle songTitle then 3
    else 0
  let titleWords := (splitWs lowerTitle).filter (fun w => 2 < w.length)
  let wordScore : Int :=
    2 * ((titleWords.filter (fun w => jsIncludes songTitle w)).length : Int)
  let queryScore : Int :=
    if 0 < queryWords.length then
      let combinedMatches := queryWords.filter (fun w => jsIncludes songCombined w)
      2 * (combinedMatches.length : Int) +
        (if max 2 ((7 * queryWords.length + 9) / 10) ≤ combinedMatches.length then 5
         else 0)
    else 0
  artistScore + titleScore + wordScore + queryScore

/-- `CommandProcessor.findBestMatch`: stable sort by descending score
(`sort((a, b) => b.score - a.score)`; JS `Array.prototype.sort` is stable)
and take the first entry.  `none` only on an empty candidate list, where the
source would throw — both call sites guard against that. -/
def findBestMatch (songs : List SongInfo) (searchArtist searchTitle : String) :
    Option SongInfo :=
  let scored := songs.map (fun song => (song, matchScore searchArtist searchTitle song))
  let sorted := scored.insertionSort (fun a b => b.2 ≤ a.2)
  sorted.head?.map (·.1)

/-- The first candidate attaining the maximal score: the specification-side
characterization `findBestMatch` is compared against (order-independence up
to stable tie-breaking). -/
def firstMaxBy (score : SongInfo → Int) : List SongInfo → Option SongInfo
  | [] => none
  | x :: xs =>
      match firstMaxBy score xs with
      | none => some x
      | some m => if score x < score m then some m else some x

/-- Result of `CustomsforgeService.searchSong`, treated as an oracle. -/
structure SearchResult where
  found : Bool
  songs : List SongInfo
deriving DecidableEq, Repr

/-- The distinct replies the two request handlers can emit. -/
inductive Reply
  | usage
  | denied (reason : Option DenyReason)
  | couldNotParse
  | alreadyInQueue (artist title : String)
  | added (artist title : String) (position queueLength : Nat)
  | vipNotAvailable
  | vipNoTokens
  | vipSpendFailed (error : Option SpendError)
  | vipAdded (artist title : String) (position : Nat) (remaining : Int)
deriving DecidableEq, Repr

/-- The song-resolution block that `handleRequest` and `handleVIPRequest`
contain verbatim ("same logic as regular request"): the three search
strategies, best-match scoring, and the unvalidated fallback candidate. -/
def resolveSong (search : String → SearchResult) (requestText : String)
    (effective : ParsedSong) : SongInfo :=
  let r1 := search requestText
  let r2 :=
    if (!r1.found || r1.songs.isEmpty) && effective.artist ≠ "" then
      search (effective.artist ++ " " ++ effective.title)
    else r1
  let r3 :=
    if (!r2.found || r2.songs.isEmpty) && effective.title ≠ "" &&
        effective.title ≠ requestText then
      search effective.title
    else r2
  if r3.found && !r3.songs.isEmpty then
    let scoreTitle := if effective.title = "" then requestText else effective.title
    (findBestMatch r3.songs effective.artist scoreTitle).getD ⟨"", ""⟩
  else
    ⟨if effective.artist = "" then "Unknown Artist" else effective.artist,
     if effective.title = "" then requestText else effective.title⟩

/-- `CommandProcessor.handleRequest` (search service as oracle). -/
def handleRequest (qs : QueueState) (now : Nat) (search : String → SearchResult)
    (userId username : String) (platform : Platform) (args : List String) :
    Reply × QueueState :=
  if args.isEmpty then (.usage, qs)
  else
    let canReq := canUserRequest qs now userId platform
    if !canReq.allowed then (.denied canReq.reason, qs)
    else
      let requestText := String.intercalate " " args
      let parsed := parseRequest requestText
      let explicit := parsed.getD ⟨"", requestText⟩
      let guess := guessArtistTitleFromFreeform requestText
      let isExplicitFormat := jsIncludes requestText " - " || testByPattern requestText
      let effective := if isExplicitFormat then explicit else guess
      match parsed with
      | none => (.couldNotParse, qs)
      | some _ =>
          let song := resolveSong search requestText effective
          if isSongInQueue qs song.artist song.title then
            (.alreadyInQueue song.artist song.title, qs)
          else
            let (request, qs') := addRequest qs now song userId username platform false
            (.added song.artist song.title (getQueuePosition qs' request.id)
              (getQueueLength qs'), qs')

structure VIPHandlerResult where
  reply : Reply
  queue : QueueState
  vip : VIPState
deriving DecidableEq, Repr

/-- `CommandProcessor.handleVIPRequest` (search service as oracle;
`hasVipService` models the optional `vipTokenService` reference). -/
def handleVIPRequest (hasVipService : Bool) (qs : QueueState) (vs : VIPState)
    (now : Nat) (search : String → SearchResult) (userId username : String)
    (platform : Platform) (args : List String) : VIPHandlerResult :=
  if !hasVipService then ⟨.vipNotAvailable, qs, vs⟩
  else
    let balance := getBalance vs platform userId
    if balance < 1 then ⟨.vipNoTokens, qs, vs⟩
    else if args.isEmpty then ⟨.usage, qs, vs⟩
    else
      let canReq := canUserRequest qs now userId platform
      if !canReq.allowed then ⟨.denied canReq.reason, qs, vs⟩
      else
        let requestText := String.intercalate " " args
        let parsed := parseRequest requestText
        let explicit := parsed.getD ⟨"", requestText⟩
        let guess := guessArtistTitleFromFreeform requestText
        let isExplicitFormat := jsIncludes requestText " - " || testByPattern requestText
        let effective := if isExplicitFormat then explicit else guess
        match parsed with
        | none => ⟨.couldNotParse, qs, vs⟩
        | some _ =>
            let song := resolveSong search requestText effective
            if isSongInQueue qs song.artist song.title then
              ⟨.alreadyInQueue song.artist song.title, qs, vs⟩
            else
              let (spendRes, vs') := spendTokens vs now platform userId 1
              if !spendRes.success then ⟨.vipSpendFailed spendRes.error, qs, vs'⟩
              else
                let (request, qs') := addRequest qs now song userId username platform true
                ⟨.vipAdded song.artist song.title (getQueuePosition qs' request.id)
                    spendRes.remainingTokens, qs', vs'⟩

/-! ## Concrete states used by witnesses and counterexamples -/

/-- A ledger with one account, `twitch:u1`, holding 3 tokens. -/
def exVip : VIPState :=
  (awardTokens vipInit 0 .twitch "u1" "U1" 3 .manual "gift").2

/-- The account record stored in `exVip`. -/
def exVipUser : VIPUser :=
  { platform := .twitch, platformUserId := "u1", displayName := "U1",
    tokens := 3, totalEarned := 3, lastUpdated := 0,
    history := [⟨0, .manual, 3, "gift"⟩] }

/-- A ledger whose single account has exactly 100 history entries, built by
100 `awardTokens` calls from the empty ledger. -/
def hundredAwards : VIPState :=
  (List.range 100).foldl
    (fun st i => (awardTokens st i .twitch "u" "U" 1 .manual "x").2) vipInit

/-- A queue (limit 3, cooldown 10 s) holding one request submitted at time 0
by twitch user id `u1` / display name `U1`. -/
def exQ : QueueState :=
  (addRequest (initQueue 3 10) 0 ⟨"A1", "T1"⟩ "u1" "U1" .twitch false).2

/-- A queue with `maxRequestsPerUser = 1` holding one request submitted at
time 0 by twitch user id `123456`, display name `Alice`. -/
def limitQ : QueueState :=
  (addRequest (initQueue 1 10) 0 ⟨"A", "T"⟩ "123456" "Alice" .twitch false).2

/-- Two non-VIP requests enqueued, then one promotion: the first request is
now `playing` while the second is still `pending`. -/
def popQ1 : QueueState :=
  (popNextRequest
    (addRequest
      (addRequest (initQueue 3 10) 0 ⟨"A1", "T1"⟩ "u1" "U1" .twitch false).2
      1 ⟨"A2", "T2"⟩ "u2" "U2" .twitch false).2).2

/-- Safety of the rate configuration: nonnegative award rates and positive
thresholds (the defaults satisfy this). -/
def RatesSafe (r : VIPTokenRates) : Prop :=
  0 ≤ r.twitchTier1 ∧ 0 ≤ r.twitchTier2 ∧ 0 ≤ r.twitchTier3 ∧ 0 ≤ r.twitchPrime ∧
  0 < r.twitchBitsAmount ∧ 0 ≤ r.twitchBitsTokens ∧ 0 ≤ r.youtubeMember ∧
  0 ≤ r.youtubeSuperChat ∧ 0 < r.youtubeSuperChatMinimum

/-- Every stored account has a nonnegative balance. -/
def TokensNonneg (st : VIPState) : Prop :=
  ∀ e ∈ st.users, 0 ≤ e.2.tokens

/-- Argument discipline: awards and balance writes carry nonnegative values
(the chat command paths validate this; the GUI set-tokens path does not). -/
def LOpNonneg : LOp → Prop
  | .award _ _ _ amount _ _ => 0 ≤ amount
  | .setTokens _ _ _ tokens => 0 ≤ tokens
  | .awardByName _ _ amount _ => 0 ≤ amount
  | .setByName _ _ tokens => 0 ≤ tokens
  | _ => True

/-! ## Theorems -/

theorem usersGet_usersSet_self (users : List (String × VIPUser)) (k : String)
    (u : VIPUser) : usersGet (usersSet users k u) k = some u := by
  induction users with
  | nil => simp [usersSet, usersGet]
  | cons e es ih =>
      by_cases he : e.1 == k
      · simp [usersSet, usersGet, he]
      · simpa [usersSet, usersGet, he] using ih

theorem usersGet_usersSet_ne (users : List (String × VIPUser)) (k k' : String)
    (u : VIPUser) (h : k' ≠ k) :
    usersGet (usersSet users k u) k' = usersGet users k' := by
  have hkk' : (k == k') = false := beq_eq_false_iff_ne.mpr (Ne.symm h)
  induction users with
  | nil => simp [usersSet, usersGet, List.find?, hkk']
  | cons e es ih =>
      by_cases he : e.1 == k
      · have he1 : e.1 = k := eq_of_beq he
        have he2 : (e.1 == k') = false := by rw [he1]; exact hkk'
        simp [usersSet, usersGet, he, List.find?, he2, hkk']
      · by_cases he' : e.1 == k'
        · simp [usersSet, usersGet, he, List.find?, he']
        · simpa [usersSet, usersGet, he, List.find?, he'] using ih

/-- **C5.** `spendTokens` fails with a no-account error when no account exists
for `(platform, userId)` and an insufficient-balance error when
`balance < amount`, leaving the whole ledger unchanged in both failure cases;
on success it decrements the balance by `amount` and appends exactly one
`spent` transaction of amount `-amount`, reporting the remaining balance. -/
theorem spendTokens_spec (st : VIPState) (now : Nat) (p : Platform)
    (uid : String) (amount : Int) :
    (usersGet st.users (getUserKey p uid) = none →
      spendTokens st now p uid amount =
        ({ success := false, remainingTokens := 0, error := some .noAccount }, st)) ∧
    (∀ user, usersGet st.users (getUserKey p uid) = some user →
      (user.tokens < amount →
        spendTokens st now p uid amount =
          ({ success := false, remainingTokens := user.tokens,
             error := some (.notEnough user.tokens amount) }, st)) ∧
      (amount ≤ user.tokens →
        (spendTokens st now p uid amount).1 =
          { success := true, remainingTokens := user.tokens - amount, error := none } ∧
        usersGet (spendTokens st now p uid amount).2.users (getUserKey p uid) =
          some { user with
                  tokens := user.tokens - amount, lastUpdated := now,
                  history := user.history ++ [⟨now, .spent, -amount, "VIP request"⟩] })) := by
  refine ⟨fun hnone => ?_, fun user huser => ⟨fun hlt => ?_, fun hge => ?_⟩⟩
  · simp [spendTokens, hnone]
  · simp [spendTokens, huser, hlt]
  · have hnotlt : ¬ user.tokens < amount := not_lt.mpr hge
    constructor
    · simp [spendTokens, huser, hnotlt]
    · simp only [spendTokens, huser, hnotlt, if_neg]
      exact usersGet_usersSet_self ..

theorem spendTokens_spec_witness :
    (spendTokens exVip 1 Platform.twitch "u1" 1).1 =
      { success := true, remainingTokens := 2, error := none } ∧
    usersGet (spendTokens exVip 1 Platform.twitch "u1" 1).2.users
        (getUserKey Platform.twitch "u1") =
      some { exVipUser with
              tokens := 2, lastUpdated := 1,
              history := exVipUser.history ++ [⟨1, .spent, -1, "VIP request"⟩] } := by
  have h :=
    ((spendTokens_spec exVip 1 Platform.twitch "u1" 1).2 exVipUser (by decide)).2
      (by decide)
  exact ⟨h.1.trans (by decide), h.2.trans (by decide)⟩

theorem trimHistory_length_le (h : List VIPTransaction) :
    (trimHistory h).length ≤ 100 := by
  unfold trimHistory
  split
  · simp only [List.length_drop]
    omega
  · omega

theorem trimHistory_suffix (h : List VIPTransaction) :
    List.IsSuffix (trimHistory h) h := by
  unfold trimHistory
  split
  · exact List.drop_suffix _ _
  · exact List.suffix_refl _

set_option maxRecDepth 40000 in
/-- **C7 (counterexample).** After 100 awards the single account's history has
exactly 100 entries; one `spendTokens` call then leaves 101 entries, because
`spendTokens` appends without trimming — the claimed cap fails after that
appending operation. -/
theorem history_cap_cex :
    ((usersGet hundredAwards.users "twitch:u").map (fun u => u.history.length)
        = some 100) ∧
    ((usersGet (spendTokens hundredAwards 200 Platform.twitch "u" 1).2.users
        "twitch:u").map (fun u => u.history.length) = some 101) := by
  constructor <;> decide

/-- **C7 (amended).** Only the two award operations trim: after `awardTokens`
and `awardTokensByUsername` the affected account's history has at most 100
entries and is a suffix of the previous history plus the new transaction
(oldest entries dropped first).  `spendTokens`, `setUserTokens` and
`setTokensByUsername` append without trimming and can exceed the cap. -/
theorem award_history_cap (st : VIPState) (now : Nat) (p : Platform)
    (uid name username : String) (amount : Int) (t : TxType) (d : String) :
    (awardTokens st now p uid name amount t d).1.history.length ≤ 100 ∧
    List.IsSuffix (awardTokens st now p uid name amount t d).1.history
      ((getOrCreateUser st now p uid name).2.1.history ++ [⟨now, t, amount, d⟩]) ∧
    (awardTokensByUsername st now p username amount d).1.history.length ≤ 100 ∧
    List.IsSuffix (awardTokensByUsername st now p username amount d).1.history
      ((findOrCreateByUsername st now p username).2.1.history
        ++ [⟨now, .manual, amount, d⟩]) :=
  ⟨trimHistory_length_le _, trimHistory_suffix _,
   trimHistory_length_le _, trimHistory_suffix _⟩

theorem usersSet_mem {users : List (String × VIPUser)} {k : String} {u : VIPUser}
    {e : String × VIPUser} (he : e ∈ usersSet users k u) : e ∈ users ∨ e = (k, u) := by
  induction users with
  | nil =>
      right
      simpa [usersSet] using he
  | cons f fs ih =>
      by_cases hf : f.1 == k
      · rw [usersSet, if_pos hf] at he
        rcases List.mem_cons.mp he with rfl | he
        · right; rfl
        · left; exact List.mem_cons_of_mem _ he
      · rw [usersSet, if_neg hf] at he
        rcases List.mem_cons.mp he with rfl | he
        · left; exact List.mem_cons_self _ _
        · rcases ih he with h | h
          · left; exact List.mem_cons_of_mem _ h
          · right; exact h

theorem usersGet_nonneg {st : VIPState} (hst : TokensNonneg st) {k : String}
    {u : VIPUser} (h : usersGet st.users k = some u) : 0 ≤ u.tokens := by
  unfold usersGet at h
  cases hf : st.users.find? (fun e => e.1 == k) with
  | none => rw [hf] at h; simp at h
  | some e =>
      rw [hf] at h
      simp only [Option.map_some', Option.some.injEq] at h
      exact h ▸ hst e (List.mem_of_find?_eq_some hf)

theorem tokensNonneg_usersSet {users : List (String × VIPUser)}
    (h : ∀ e ∈ users, 0 ≤ e.2.tokens) {u : VIPUser} (hu : 0 ≤ u.tokens)
    (k : String) : ∀ e ∈ usersSet users k u, 0 ≤ e.2.tokens := fun e he =>
  (usersSet_mem he).elim (h e) (fun hk => hk ▸ hu)

theorem tokensNonneg_mk {users : List (String × VIPUser)} {r : VIPTokenRates}
    (h : ∀ e ∈ users, 0 ≤ e.2.tokens) : TokensNonneg ⟨users, r⟩ := h

theorem usersDelete_nonneg {users : List (String × VIPUser)}
    (h : ∀ e ∈ users, 0 ≤ e.2.tokens) (k : String) :
    ∀ e ∈ usersDelete users k, 0 ≤ e.2.tokens := fun e he =>
  h e (List.mem_of_mem_filter he)

/-- `getOrCreateUser` hands back a user carrying the tokens of an existing
account (or zero) and preserves balance nonnegativity. -/
theorem getOrCreateUser_nonneg {st : VIPState} (hst : TokensNonneg st)
    (now : Nat) (p : Platform) (uid name : String) :
    0 ≤ (getOrCreateUser st now p uid name).2.1.tokens ∧
    TokensNonneg (getOrCreateUser st now p uid name).2.2 := by
  cases hg : usersGet st.users (getUserKey p uid) with
  | some u =>
      have hu := usersGet_nonneg hst hg
      simp only [getOrCreateUser, hg]
      refine ⟨hu, fun e he => ?_⟩
      rcases usersSet_mem he with h | h
      · exact hst e h
      · rw [h]; exact hu
  | none =>
      cases hf : findUserByDisplayName st p name with
      | some w =>
          have hu : 0 ≤ w.2.tokens := hst w (List.mem_of_find?_eq_some hf)
          simp only [getOrCreateUser, hg, hf]
          refine ⟨hu, fun e he => ?_⟩
          rcases usersSet_mem he with h | h
          · exact usersDelete_nonneg hst _ e h
          · rw [h]; exact hu
      | none =>
          simp only [getOrCreateUser, hg, hf]
          refine ⟨le_refl 0, fun e he => ?_⟩
          rcases usersSet_mem he with h | h
          · exact hst e h
          · rw [h]

theorem getOrCreateUser_rates (st : VIPState) (now : Nat) (p : Platform)
    (uid name : String) :
    (getOrCreateUser st now p uid name).2.2.rates = st.rates := by
  cases hg : usersGet st.users (getUserKey p uid) with
  | some u => simp only [getOrCreateUser, hg]
  | none =>
      cases hf : findUserByDisplayName st p name with
      | some e => simp only [getOrCreateUser, hg, hf]
      | none => simp only [getOrCreateUser, hg, hf]

/-- Same facts for `findOrCreateByUsername`. -/
theorem findOrCreateByUsername_nonneg {st : VIPState} (hst : TokensNonneg st)
    (now : Nat) (p : Platform) (username : String) :
    0 ≤ (findOrCreateByUsername st now p username).2.1.tokens ∧
    TokensNonneg (findOrCreateByUsername st now p username).2.2 := by
  unfold findOrCreateByUsername
  cases hf : findUserByDisplayName st p username with
  | some e =>
      exact ⟨hst e (List.mem_of_find?_eq_some hf), hst⟩
  | none => exact getOrCreateUser_nonneg hst now p _ _

theorem findOrCreateByUsername_rates (st : VIPState) (now : Nat) (p : Platform)
    (username : String) :
    (findOrCreateByUsername st now p username).2.2.rates = st.rates := by
  unfold findOrCreateByUsername
  cases hf : findUserByDisplayName st p username with
  | some e => rfl
  | none => exact getOrCreateUser_rates ..

theorem awardTokens_nonneg {st : VIPState} (hst : TokensNonneg st) {amount : Int}
    (ha : 0 ≤ amount) (now : Nat) (p : Platform) (uid name : String)
    (t : TxType) (d : String) :
    TokensNonneg (awardTokens st now p uid name amount t d).2 := by
  have h := getOrCreateUser_nonneg hst now p uid name
  rcases hg : getOrCreateUser st now p uid name with ⟨key, user, st'⟩
  rw [hg] at h
  simp only [awardTokens, hg]
  intro e he
  rcases usersSet_mem he with hm | hm
  · exact h.2 e hm
  · rw [hm]; exact add_nonneg h.1 ha

theorem awardTokens_rates (st : VIPState) (now : Nat) (p : Platform)
    (uid name : String) (amount : Int) (t : TxType) (d : String) :
    (awardTokens st now p uid name amount t d).2.rates = st.rates := by
  have h := getOrCreateUser_rates st now p uid name
  rcases hg : getOrCreateUser st now p uid name with ⟨key, user, st'⟩
  rw [hg] at h
  simp only [awardTokens, hg]
  exact h

theorem applyLOp_rates (st : VIPState) (now : Nat) (op : LOp) :
    (applyLOp st now op).rates = st.rates := by
  cases op with
  | award p uid name amount t d => exact awardTokens_rates ..
  | spend p uid amount =>
      show (spendTokens st now p uid amount).2.rates = st.rates
      cases hg : usersGet st.users (getUserKey p uid) with
      | none => simp only [spendTokens, hg]
      | some user =>
          by_cases hlt : user.tokens < amount
          · simp only [spendTokens, hg, if_pos hlt]
          · simp only [spendTokens, hg, if_neg hlt]
  | setTokens p uid name tokens =>
      have h := getOrCreateUser_rates st now p uid name
      rcases hg : getOrCreateUser st now p uid name with ⟨key, user, st'⟩
      rw [hg] at h
      show (setUserTokens st now p uid name tokens).2.rates = st.rates
      simp only [setUserTokens, hg]
      exact h
  | awardByName p name amount d =>
      have h := findOrCreateByUsername_rates st now p name
      rcases hg : findOrCreateByUsername st now p name with ⟨key, user, st'⟩
      rw [hg] at h
      show (awardTokensByUsername st now p name amount d).2.rates = st.rates
      simp only [awardTokensByUsername, hg]
      exact h
  | setByName p name tokens =>
      have h := findOrCreateByUsername_rates st now p name
      rcases hg : findOrCreateByUsername st now p name with ⟨key, user, st'⟩
      rw [hg] at h
      show (setTokensByUsername st now p name tokens).2.rates = st.rates
      simp only [setTokensByUsername, hg]
      exact h
  | subEvent uid name tier =>
      show (handleTwitchSubscription st now uid name tier).2.rates = st.rates
      unfold handleTwitchSubscription
      exact awardTokens_rates ..
  | bitsEvent uid name bits =>
      show (handleTwitchBits st now uid name bits).2.rates = st.rates
      unfold handleTwitchBits
      by_cases hb : bits < st.rates.twitchBitsAmount
      · simp only [hb, if_pos]
      · simp only [hb, if_neg, not_false_iff]
        exact awardTokens_rates ..
  | memberEvent cid name =>
      show (handleYouTubeMembership st now cid name).2.rates = st.rates
      unfold handleYouTubeMembership
      exact awardTokens_rates ..
  | superChatEvent cid name micros =>
      show (handleYouTubeSuperChat st now cid name micros).2.rates = st.rates
      unfold handleYouTubeSuperChat
      by_cases hm : micros / 1000000 < st.rates.youtubeSuperChatMinimum
      · simp only [hm, if_pos]
      · simp only [hm, if_neg, not_false_iff]
        exact awardTokens_rates ..

theorem applyLOp_nonneg {st : VIPState} (hst : TokensNonneg st)
    (hr : RatesSafe st.rates) (now : Nat) (op : LOp) (hop : LOpNonneg op) :
    TokensNonneg (applyLOp st now op) := by
  obtain ⟨h1, h2, h3, h4, h5, h6, h7, h8, h9⟩ := hr
  cases op with
  | award p uid name amount t d => exact awardTokens_nonneg hst hop now p uid name t d
  | spend p uid amount =>
      show TokensNonneg (spendTokens st now p uid amount).2
      cases hg : usersGet st.users (getUserKey p uid) with
      | none => simp only [spendTokens, hg]; exact hst
      | some user =>
          by_cases hlt : user.tokens < amount
          · simp only [spendTokens, hg, if_pos hlt]; exact hst
          · simp only [spendTokens, hg, if_neg hlt]
            have hu : (0 : Int) ≤ user.tokens - amount := by omega
            intro e he
            rcases usersSet_mem he with hm | hm
            · exact hst e hm
            · rw [hm]; exact hu
  | setTokens p uid name tokens =>
      have h := getOrCreateUser_nonneg hst now p uid name
      rcases hg : getOrCreateUser st now p uid name with ⟨key, user, st'⟩
      rw [hg] at h
      show TokensNonneg (setUserTokens st now p uid name tokens).2
      simp only [setUserTokens, hg]
      have hop' : (0 : Int) ≤ tokens := hop
      intro e he
      rcases usersSet_mem he with hm | hm
      · exact h.2 e hm
      · rw [hm]; exact hop'
  | awardByName p name amount d =>
      have h := findOrCreateByUsername_nonneg hst now p name
      rcases hg : findOrCreateByUsername st now p name with ⟨key, user, st'⟩
      rw [hg] at h
      show TokensNonneg (awardTokensByUsername st now p name amount d).2
      simp only [awardTokensByUsername, hg]
      have hop' : (0 : Int) ≤ amount := hop
      intro e he
      rcases usersSet_mem he with hm | hm
      · exact h.2 e hm
      · rw [hm]; exact add_nonneg h.1 hop'
  | setByName p name tokens =>
      have h := findOrCreateByUsername_nonneg hst now p name
      rcases hg : findOrCreateByUsername st now p name with ⟨key, user, st'⟩
      rw [hg] at h
      show TokensNonneg (setTokensByUsername st now p name tokens).2
      simp only [setTokensByUsername, hg]
      have hop' : (0 : Int) ≤ tokens := hop
      intro e he
      rcases usersSet_mem he with hm | hm
      · exact h.2 e hm
      · rw [hm]; exact hop'
  | subEvent uid name tier =>
      show TokensNonneg (handleTwitchSubscription st now uid name tier).2
      unfold handleTwitchSubscription
      cases tier
      · exact awardTokens_nonneg hst h4 now _ uid name _ _
      · exact awardTokens_nonneg hst h1 now _ uid name _ _
      · exact awardTokens_nonneg hst h2 now _ uid name _ _
      · exact awardTokens_nonneg hst h3 now _ uid name _ _
  | bitsEvent uid name bits =>
      show TokensNonneg (handleTwitchBits st now uid name bits).2
      unfold handleTwitchBits
      by_cases hb : bits < st.rates.twitchBitsAmount
      · simp only [hb, if_pos]; exact hst
      · simp only [hb, if_neg, not_false_iff]
        have hbits : 0 ≤ bits := le_trans (le_of_lt h5) (not_lt.mp hb)
        have htok : 0 ≤ Int.fdiv bits st.rates.twitchBitsAmount * st.rates.twitchBitsTokens :=
          mul_nonneg (Int.fdiv_nonneg hbits (le_of_lt h5)) h6
        exact awardTokens_nonneg hst htok now _ uid name _ _
  | memberEvent cid name =>
      show TokensNonneg (handleYouTubeMembership st now cid name).2
      unfold handleYouTubeMembership
      exact awardTokens_nonneg hst h7 now _ cid name _ _
  | superChatEvent cid name micros =>
      show TokensNonneg (handleYouTubeSuperChat st now cid name micros).2
      unfold handleYouTubeSuperChat
      by_cases hm : micros / 1000000 < st.rates.youtubeSuperChatMinimum
      · simp only [hm, if_pos]; exact hst
      · simp only [hm, if_neg, not_false_iff]
        have hdiv : (0 : ℚ) ≤ micros / 1000000 / st.rates.youtubeSuperChatMinimum :=
          div_nonneg (le_trans (le_of_lt h9) (not_lt.mp hm)) (le_of_lt h9)
        have htok : 0 ≤ ⌊micros / 1000000 / st.rates.youtubeSuperChatMinimum⌋
            * st.rates.youtubeSuperChat :=
          mul_nonneg (Int.floor_nonneg.mpr hdiv) h8
        exact awardTokens_nonneg hst htok now _ cid name _ _

/-- **C6 (counterexample).** A single `setUserTokens` call with a negative
target (reachable from the GUI, whose `parseInt` result is not
sign-checked) makes an account's balance negative. -/
theorem tokens_nonneg_cex :
    (setUserTokens vipInit 0 Platform.twitch "u" "U" (-3)).1.tokens = -3 ∧
    usersGet (setUserTokens vipInit 0 Platform.twitch "u" "U" (-3)).2.users
        "twitch:u" =
      some (setUserTokens vipInit 0 Platform.twitch "u" "U" (-3)).1 := by
  constructor <;> decide

/-- **C6 (amended).** For every sequence of ledger operations in which award
amounts and balance-write targets are nonnegative (and under a safe rate
configuration), every account's balance stays nonnegative after each
operation; `spendTokens` needs no side condition, since it refuses any spend
exceeding the balance. -/
theorem tokens_nonneg_invariant (ops : List (Nat × LOp)) (init : VIPState)
    (hinit : TokensNonneg init) (hr : RatesSafe init.rates)
    (hops : ∀ o ∈ ops, LOpNonneg o.2) :
    TokensNonneg (ops.foldl (fun st o => applyLOp st o.1 o.2) init) := by
  induction ops generalizing init with
  | nil => exact hinit
  | cons o os ih =>
      have h := applyLOp_nonneg hinit hr o.1 o.2 (hops o (List.mem_cons_self _ _))
      have hr' : RatesSafe (applyLOp init o.1 o.2).rates := by
        rw [applyLOp_rates]; exact hr
      exact ih _ h hr' (fun o' ho' => hops o' (List.mem_cons_of_mem _ ho'))

theorem tokens_nonneg_invariant_witness :
    TokensNonneg
      ([((0 : Nat), LOp.award Platform.twitch "u" "U" 2 TxType.manual "g"),
        ((1 : Nat), LOp.spend Platform.twitch "u" 1),
        ((2 : Nat), LOp.setTokens Platform.twitch "u" "U" 5),
        ((3 : Nat), LOp.bitsEvent "u" "U" 600)].foldl
          (fun st o => applyLOp st o.1 o.2) vipInit) := by
  refine tokens_nonneg_invariant _ vipInit ?_ ?_ ?_
  · intro e he
    simp [vipInit] at he
  · refine ⟨by decide, by decide, by decide, by decide, by decide, by decide,
      by decide, by decide, ?_⟩
    show (0 : ℚ) < 5/2
    norm_num
  · intro o ho
    simp only [List.mem_cons, List.not_mem_nil, or_false] at ho
    rcases ho with rfl | rfl | rfl | rfl
    · show (0 : Int) ≤ 2; decide
    · trivial
    · show (0 : Int) ≤ 5; decide
    · trivial

theorem mapGet_mapSet_self (m : List (String × Nat)) (k : String) (v : Nat) :
    mapGet (mapSet m k v) k = some v := by
  induction m with
  | nil => simp [mapSet, mapGet]
  | cons e es ih =>
      by_cases he : e.1 == k
      · simp [mapSet, mapGet, he]
      · simpa [mapSet, mapGet, he] using ih

/-- Evaluation of `canUserRequest` when the cooldown is still running. -/
theorem canUserRequest_cooldown_active (s : QueueState) (now t₀ : Nat)
    (userId : String) (platform : Platform)
    (hcd : mapGet s.userCooldowns (userKey platform userId) = some t₀)
    (hc : ((now : ℚ) - (t₀ : ℚ)) / 1000 < (s.cooldownSeconds : ℚ)) :
    canUserRequest s now userId platform =
      { allowed := false,
        reason := some
          (.cooldown ⌈(s.cooldownSeconds : ℚ) - ((now : ℚ) - (t₀ : ℚ)) / 1000⌉) } := by
  simp only [canUserRequest, hcd, if_pos hc]

/-- Evaluation of `canUserRequest` when the cooldown has expired and the
(code-counted) pending total is below the limit. -/
theorem canUserRequest_cooldown_passed (s : QueueState) (now t₀ : Nat)
    (userId : String) (platform : Platform)
    (hcd : mapGet s.userCooldowns (userKey platform userId) = some t₀)
    (hc : ¬ (((now : ℚ) - (t₀ : ℚ)) / 1000 < (s.cooldownSeconds : ℚ)))
    (hpend : (s.requests.filter fun r =>
        r.requestedBy == userId && r.platform == platform &&
        r.status == Status.pending).length < s.maxRequestsPerUser) :
    canUserRequest s now userId platform = { allowed := true, reason := none } := by
  simp only [canUserRequest, hcd, if_neg hc, if_neg (not_le.mpr hpend)]

/-- **C9.** For a requester whose cooldown timestamp is `t₀` and whose pending
count (as the code counts it) is below the limit, a request `d` milliseconds
later is denied — with the remaining whole seconds, `⌈cooldownSeconds − d/1000⌉`
— exactly while `d < cooldownSeconds · 1000`, and allowed at and after expiry;
`addRequest` refreshes the cooldown timestamp to the enqueue time. -/
theorem cooldown_spec (s : QueueState) (t₀ d : Nat) (userId : String)
    (platform : Platform)
    (hcd : mapGet s.userCooldowns (userKey platform userId) = some t₀)
    (hpend : (s.requests.filter fun r =>
        r.requestedBy == userId && r.platform == platform &&
        r.status == Status.pending).length < s.maxRequestsPerUser) :
    ((canUserRequest s (t₀ + d) userId platform).allowed = true
        ↔ s.cooldownSeconds * 1000 ≤ d) ∧
    (d < s.cooldownSeconds * 1000 →
      canUserRequest s (t₀ + d) userId platform =
        { allowed := false,
          reason := some (.cooldown ⌈(s.cooldownSeconds : ℚ) - (d : ℚ) / 1000⌉) }) ∧
    ∀ (now : Nat) (song : SongInfo) (username : String) (isVIP : Bool),
      mapGet (addRequest s now song userId username platform isVIP).2.userCooldowns
        (userKey platform userId) = some now := by
  have helapsed : (((t₀ + d : Nat) : ℚ) - (t₀ : ℚ)) / 1000 = (d : ℚ) / 1000 := by
    push_cast
    ring
  have hiff : ((((t₀ + d : Nat) : ℚ) - (t₀ : ℚ)) / 1000 < (s.cooldownSeconds : ℚ))
      ↔ d < s.cooldownSeconds * 1000 := by
    rw [helapsed, div_lt_iff₀ (by norm_num : (0 : ℚ) < 1000)]
    constructor
    · intro h
      exact_mod_cast h
    · intro h
      exact_mod_cast h
  refine ⟨?_, ?_, ?_⟩
  · by_cases hd : d < s.cooldownSeconds * 1000
    · rw [canUserRequest_cooldown_active s (t₀ + d) t₀ userId platform hcd (hiff.mpr hd)]
      simp only [Bool.false_eq_true, false_iff]
      omega
    · rw [canUserRequest_cooldown_passed s (t₀ + d) t₀ userId platform hcd
        (fun hc => hd (hiff.mp hc)) hpend]
      simp only [true_iff]
      omega
  · intro hd
    rw [canUserRequest_cooldown_active s (t₀ + d) t₀ userId platform hcd (hiff.mpr hd),
      helapsed]
  · intro now song username isVIP
    show mapGet (mapSet s.userCooldowns (userKey platform userId) now) _ = some now
    exact mapGet_mapSet_self ..

theorem cooldown_spec_witness :
    canUserRequest exQ (0 + 9999) "u1" Platform.twitch =
      { allowed := false, reason := some (.cooldown 1) } ∧
    (canUserRequest exQ (0 + 10000) "u1" Platform.twitch).allowed = true := by
  have h := cooldown_spec exQ 0 9999 "u1" Platform.twitch (by decide) (by decide)
  have h' := cooldown_spec exQ 0 10000 "u1" Platform.twitch (by decide) (by decide)
  refine ⟨(h.2.1 (by decide)).trans ?_, h'.1.mpr (by decide)⟩
  have h10 : exQ.cooldownSeconds = 10 := rfl
  rw [h10]
  have hceil : ⌈((10 : Nat) : ℚ) - ((9999 : Nat) : ℚ) / 1000⌉ = 1 := by
    rw [Int.ceil_eq_iff]
    push_cast
    norm_num
  rw [hceil]

/-- **C4 (code_bug).** The per-user pending limit cannot trigger when the
stored display name differs from the platform user id: `canUserRequest`
compares the caller's `userId` against `requestedBy`, but `addRequest` stores
the *username* there (on Twitch, `userId` is the numeric `user-id` tag and
`username` the display name).  Concretely, with `maxRequestsPerUser = 1`,
after user id `123456` (display name `Alice`) enqueues one request they have
1 = max pending requests, yet a later `canUserRequest` still allows. -/
theorem per_user_limit_bug :
    (getUserRequests limitQ "Alice" Platform.twitch).length =
        limitQ.maxRequestsPerUser ∧
    (canUserRequest limitQ 10000 "123456" Platform.twitch).allowed = true := by
  refine ⟨by decide, ?_⟩
  have hc : ¬ ((((10000 : Nat) : ℚ) - ((0 : Nat) : ℚ)) / 1000
      < (limitQ.cooldownSeconds : ℚ)) := by
    have h10 : limitQ.cooldownSeconds = 10 := rfl
    rw [h10]
    push_cast
    norm_num
  rw [canUserRequest_cooldown_passed limitQ 10000 0 "123456" Platform.twitch
    (by decide) hc (by decide)]

/-- **C3 (counterexample).** In `popQ1` one entry is already `playing`, yet
`popNextRequest` is not a no-op: it returns the next pending entry and marks
it `playing` too, leaving the active queue with two `playing` entries after a
sequence that promoted only via this operation. -/
theorem popNext_double_playing_cex :
    (popQ1.requests.any (fun r => r.status == Status.playing) = true) ∧
    ((popNextRequest popQ1).1.isSome = true) ∧
    (((popNextRequest popQ1).2.requests.filter
        (fun r => r.status == Status.playing)).length = 2) := by
  refine ⟨by decide, by decide, by decide⟩

/-- **C3 (amended).** `popNextRequest` is a no-op returning `none` exactly
when no pending entry exists; otherwise — regardless of any entry already
being `playing` — it marks the first pending entry `playing` and returns it,
so repeated promotion without completion can produce several `playing`
entries. -/
theorem popNextRequest_spec (s : QueueState) :
    (getPendingRequests s = [] → popNextRequest s = (none, s)) ∧
    (∀ r rest, getPendingRequests s = r :: rest →
      popNextRequest s =
        (some { r with status := Status.playing },
         { s with requests := setStatusFirst s.requests r.id Status.playing })) := by
  constructor
  · intro h
    simp only [popNextRequest, getNextRequest, h, List.head?]
  · intro r rest h
    have hr : r ∈ s.requests := by
      have : r ∈ getPendingRequests s := by
        rw [h]
        exact List.mem_cons_self _ _
      exact List.mem_of_mem_filter this
    have hex : ∃ x ∈ s.requests, (x.id == r.id) = true := ⟨r, hr, beq_self_eq_true _⟩
    cases hf : s.requests.find? (fun x => x.id == r.id) with
    | none =>
        exfalso
        have := List.find?_isSome.mpr hex
        rw [hf] at this
        simp at this
    | some e =>
        simp only [popNextRequest, getNextRequest, h, List.head?, markPlaying, hf]

theorem popNextRequest_spec_witness :
    popNextRequest (initQueue 3 10) = (none, initQueue 3 10) ∧
    popNextRequest exQ =
      (some { id := 0, song := ⟨"A1", "T1"⟩, requestedBy := "U1",
              platform := Platform.twitch, requestedAt := 0,
              status := Status.playing, isVIP := false },
       { exQ with requests := setStatusFirst exQ.requests 0 Status.playing }) := by
  refine ⟨(popNextRequest_spec (initQueue 3 10)).1 (by decide), ?_⟩
  have h := (popNextRequest_spec exQ).2
    { id := 0, song := ⟨"A1", "T1"⟩, requestedBy := "U1", platform := Platform.twitch,
      requestedAt := 0, status := Status.pending, isVIP := false } [] (by decide)
  exact h.trans (by decide)

theorem parseRequest_isSome (text : String) (h : ¬ jsTrim text = "") :
    (parseRequest text).isSome = true := by
  simp only [parseRequest, if_neg h]
  split
  · rfl
  · split
    · rfl
    · rfl

/-- **C10.** `parseRequest` returns a result for every request text with a
non-empty trim (defaulting to an empty artist and the whole trimmed text as
title), so the "Could not parse your request" branch of `handleRequest` and
`handleVIPRequest` is unreachable whenever the joined arguments are
non-blank — which holds for any non-empty argument list produced by the
whitespace-splitting command dispatcher. -/
theorem parse_never_fails (qs : QueueState) (vs : VIPState) (now : Nat)
    (search : String → SearchResult) (userId username : String)
    (platform : Platform) (args : List String)
    (h : ¬ jsTrim (String.intercalate " " args) = "") :
    (∀ text : String, ¬ jsTrim text = "" → (parseRequest text).isSome = true) ∧
    (handleRequest qs now search userId username platform args).1 ≠
        Reply.couldNotParse ∧
    (handleVIPRequest true qs vs now search userId username platform args).reply ≠
        Reply.couldNotParse := by
  have hp := parseRequest_isSome (String.intercalate " " args) h
  refine ⟨fun text ht => parseRequest_isSome text ht, ?_, ?_⟩
  · simp only [handleRequest]
    split
    · simp
    · split
      · simp
      · split
        · rename_i heq
          rw [heq] at hp
          simp at hp
        · split
          · split <;> simp
          · split <;> simp
  · simp only [handleVIPRequest]
    split
    · simp_all
    · split
      · simp
      · split
        · simp
        · split
          · simp
          · split
            · rename_i heq
              rw [heq] at hp
              simp at hp
            · split
              · split
                · simp
                · split <;> simp
              · split
                · simp
                · split <;> simp

theorem parse_never_fails_witness :
    (parseRequest "Muse - Uprising").isSome = true ∧
    (handleRequest (initQueue 3 10) 0 (fun _ => ⟨false, []⟩) "u1" "U1" Platform.twitch
        ["Muse", "-", "Uprising"]).1 ≠ Reply.couldNotParse ∧
    (handleVIPRequest true (initQueue 3 10) vipInit 0 (fun _ => ⟨false, []⟩) "u1" "U1"
        Platform.twitch ["Muse", "-", "Uprising"]).reply ≠ Reply.couldNotParse := by
  have h := parse_never_fails (initQueue 3 10) vipInit 0 (fun _ => ⟨false, []⟩)
    "u1" "U1" Platform.twitch ["Muse", "-", "Uprising"] (by decide)
  exact ⟨h.1 "Muse - Uprising" (by decide), h.2.1, h.2.2⟩

theorem orderedInsert_head {α : Type} (r : α → α → Prop) [DecidableRel r]
    (a : α) (l : List α) :
    (l.orderedInsert r a).head? =
      match l with
      | [] => some a
      | b :: _ => if r a b then some a else some b := by
  cases l with
  | nil => rfl
  | cons b t =>
      simp only [List.orderedInsert]
      split <;> simp

theorem firstMaxBy_none (f : SongInfo → Int) (l : List SongInfo)
    (h : firstMaxBy f l = none) : l = [] := by
  cases l with
  | nil => rfl
  | cons x xs =>
      exfalso
      simp only [firstMaxBy] at h
      rcases hx : firstMaxBy f xs with _ | m <;> rw [hx] at h
      · exact Option.noConfusion h
      · by_cases hc : f x < f m <;> simp [hc] at h

theorem firstMaxBy_spec (f : SongInfo → Int) (l : List SongInfo) (m : SongInfo)
    (h : firstMaxBy f l = some m) : m ∈ l ∧ ∀ x ∈ l, f x ≤ f m := by
  induction l generalizing m with
  | nil => exact Option.noConfusion h
  | cons x xs ih =>
      simp only [firstMaxBy] at h
      rcases hx : firstMaxBy f xs with _ | m' <;> rw [hx] at h
      · have hxs := firstMaxBy_none f xs hx
        subst hxs
        cases h
        exact ⟨List.mem_cons_self _ _, by simp⟩
      · obtain ⟨hm'mem, hm'max⟩ := ih m' hx
        have h' : (if f x < f m' then some m' else some x) = some m := h
        by_cases hc : f x < f m'
        · rw [if_pos hc] at h'
          cases h'
          refine ⟨List.mem_cons_of_mem _ hm'mem, fun y hy => ?_⟩
          rcases List.mem_cons.mp hy with rfl | hy
          · exact le_of_lt hc
          · exact hm'max y hy
        · rw [if_neg hc] at h'
          cases h'
          refine ⟨List.mem_cons_self _ _, fun y hy => ?_⟩
          rcases List.mem_cons.mp hy with rfl | hy
          · exact le_refl _
          · exact le_trans (hm'max y hy) (not_lt.mp hc)

theorem insertionSort_head_firstMax (f : SongInfo → Int) (l : List SongInfo) :
    (((l.map (fun s => (s, f s))).insertionSort
        (fun a b => b.2 ≤ a.2)).head?).map (·.1) = firstMaxBy f l := by
  induction l with
  | nil => rfl
  | cons x xs ih =>
      simp only [List.map_cons, List.insertionSort]
      rw [orderedInsert_head]
      cases hs : (xs.map (fun s => (s, f s))).insertionSort (fun a b => b.2 ≤ a.2) with
      | nil =>
          have hm : firstMaxBy f xs = none := by
            rw [← ih, hs]
            rfl
          simp only [firstMaxBy, hm]
          rfl
      | cons b t =>
          have hb2 : b.2 = f b.1 := by
            have hperm :=
              List.perm_insertionSort (fun a b : SongInfo × Int => b.2 ≤ a.2)
                (xs.map (fun s => (s, f s)))
            have hmem : b ∈ xs.map (fun s => (s, f s)) :=
              hperm.mem_iff.mp (by rw [hs]; exact List.mem_cons_self b t)
            obtain ⟨s, _, heq⟩ := List.mem_map.mp hmem
            rw [← heq]
          have hm : firstMaxBy f xs = some b.1 := by
            rw [← ih, hs]
            rfl
          simp only [firstMaxBy, hm]
          by_cases hc : f x < f b.1
          · have hr : ¬ (b.2 ≤ (x, f x).2) := by
              rw [hb2]
              simpa using hc
            rw [if_neg hr, if_pos hc]
            rfl
          · have hr : b.2 ≤ (x, f x).2 := by
              rw [hb2]
              simpa using not_lt.mp hc
            rw [if_pos hr, if_neg hc]
            rfl

/-- **C8.** `findBestMatch` returns exactly the first candidate attaining the
maximal score — deterministic and independent of candidate order up to the
stable tie-break by catalog order — and, on the candidate list
`[("Green Day", "American Idiot"), ("Greenday Tribute", "American Idiot Cover")]`
with search `("Green Day", "American Idiot")`, the first candidate scores
strictly higher (37 against 22) and is selected. -/
theorem best_match_scoring (songs : List SongInfo)
    (searchArtist searchTitle : String) (h : songs ≠ []) :
    (findBestMatch songs searchArtist searchTitle =
        firstMaxBy (matchScore searchArtist searchTitle) songs) ∧
    (∀ m, firstMaxBy (matchScore searchArtist searchTitle) songs = some m →
        m ∈ songs ∧
        ∀ x ∈ songs, matchScore searchArtist searchTitle x ≤
          matchScore searchArtist searchTitle m) ∧
    matchScore "Green Day" "American Idiot" ⟨"Green Day", "American Idiot"⟩ >
      matchScore "Green Day" "American Idiot"
        ⟨"Greenday Tribute", "American Idiot Cover"⟩ ∧
    findBestMatch
        [⟨"Green Day", "American Idiot"⟩, ⟨"Greenday Tribute", "American Idiot Cover"⟩]
        "Green Day" "American Idiot" = some ⟨"Green Day", "American Idiot"⟩ := by
  refine ⟨?_, fun m hm => firstMaxBy_spec _ songs m hm, by decide, by decide⟩
  show ((songs.map (fun s => (s, matchScore searchArtist searchTitle s))).insertionSort
      (fun a b => b.2 ≤ a.2)).head?.map (·.1) =
    firstMaxBy (matchScore searchArtist searchTitle) songs
  exact insertionSort_head_firstMax _ songs

theorem best_match_scoring_witness :
    findBestMatch
        [⟨"Green Day", "American Idiot"⟩, ⟨"Greenday Tribute", "American Idiot Cover"⟩]
        "Green Day" "American Idiot" =
      firstMaxBy (matchScore "Green Day" "American Idiot")
        [⟨"Green Day", "American Idiot"⟩, ⟨"Greenday Tribute", "American Idiot Cover"⟩] ∧
    firstMaxBy (matchScore "Green Day" "American Idiot")
        [⟨"Green Day", "American Idiot"⟩, ⟨"Greenday Tribute", "American Idiot Cover"⟩] =
      some ⟨"Green Day", "American Idiot"⟩ := by
  have h := best_match_scoring
    [⟨"Green Day", "American Idiot"⟩, ⟨"Greenday Tribute", "American Idiot Cover"⟩]
    "Green Day" "American Idiot" (by decide)
  exact ⟨h.1, by decide⟩

theorem spendTokens_fail_unchanged (st : VIPState) (now : Nat) (p : Platform)
    (uid : String) (amount : Int)
    (h : (spendTokens st now p uid amount).1.success = false) :
    (spendTokens st now p uid amount).2 = st := by
  cases hg : usersGet st.users (getUserKey p uid) with
  | none => simp [spendTokens, hg]
  | some user =>
      by_cases hlt : user.tokens < amount
      · simp [spendTokens, hg, hlt]
      · exfalso
        rw [show (spendTokens st now p uid amount).1.success = true by
          simp [spendTokens, hg, hlt]] at h
        exact Bool.noConfusion h

/-- **C2.** With a zero token balance, `handleVIPRequest` aborts before any
mutation: the queue and the ledger are returned unchanged (so no transaction
is appended) and the reply reports missing tokens.  Moreover the ledger ever
changes only on the success path: whenever the returned ledger differs from
the input one, a candidate song had been confirmed whose duplicate check
passed, the spend of one token succeeded, the new ledger is exactly the
post-spend ledger, and the new queue is exactly the input queue with that
song enqueued as a priority request — the spend happens only after the
duplicate check and before the enqueue. -/
theorem viprequest_spend_guard (qs : QueueState) (vs : VIPState) (now : Nat)
    (search : String → SearchResult) (userId username : String)
    (platform : Platform) (args : List String) :
    (getBalance vs platform userId = 0 →
      handleVIPRequest true qs vs now search userId username platform args =
        ⟨Reply.vipNoTokens, qs, vs⟩) ∧
    ((handleVIPRequest true qs vs now search userId username platform args).vip ≠ vs →
      ∃ song : SongInfo,
        isSongInQueue qs song.artist song.title = false ∧
        (spendTokens vs now platform userId 1).1.success = true ∧
        (handleVIPRequest true qs vs now search userId username platform args).vip =
          (spendTokens vs now platform userId 1).2 ∧
        (handleVIPRequest true qs vs now search userId username platform args).queue =
          (addRequest qs now song userId username platform true).2) := by
  constructor
  · intro hbal
    simp [handleVIPRequest, hbal]
  · simp only [handleVIPRequest]
    split
    · simp_all
    · split
      · intro hne
        exact absurd rfl hne
      · split
        · intro hne
          exact absurd rfl hne
        · split
          · intro hne
            exact absurd rfl hne
          · split
            · intro hne
              exact absurd rfl hne
            · split <;>
              · split
                · intro hne
                  exact absurd rfl hne
                · split
                  · intro hne
                    rename_i hfail
                    refine absurd (spendTokens_fail_unchanged vs now platform userId 1 ?_) hne
                    simpa using hfail
                  · intro hne
                    rename_i hdup hsucc
                    refine ⟨_, ?_, ?_, rfl, rfl⟩
                    · simpa using hdup
                    · simpa using hsucc

theorem viprequest_spend_guard_witness :
    handleVIPRequest true (initQueue 3 10) vipInit 0 (fun _ => ⟨false, []⟩)
        "u1" "U1" Platform.twitch ["Muse", "-", "Uprising"] =
      ⟨Reply.vipNoTokens, initQueue 3 10, vipInit⟩ :=
  (viprequest_spend_guard (initQueue 3 10) vipInit 0 (fun _ => ⟨false, []⟩)
    "u1" "U1" Platform.twitch ["Muse", "-", "Uprising"]).1 (by decide)

/-! ### C1: the priority-lane ordering invariant -/

theorem lastVIPIdxAux_no_pvip {l : List SongRequest} (i last : Int)
    (h : ∀ r ∈ l, (r.status == Status.pending && r.isVIP) = false) :
    lastVIPIdxAux l i last = last := by
  induction l generalizing i last with
  | nil => rfl
  | cons r rs ih =>
      simp only [lastVIPIdxAux, h r (List.mem_cons_self _ _)]
      exact ih _ _ (fun x hx => h x (List.mem_cons_of_mem _ hx))

theorem lastVIPIdxAux_with_last (l₁ : List SongRequest) (v : SongRequest)
    (l₂ : List SongRequest) (i last : Int)
    (hv : (v.status == Status.pending && v.isVIP) = true)
    (h₂ : ∀ r ∈ l₂, (r.status == Status.pending && r.isVIP) = false) :
    lastVIPIdxAux (l₁ ++ v :: l₂) i last = i + l₁.length := by
  induction l₁ generalizing i last with
  | nil =>
      simp only [List.nil_append, lastVIPIdxAux, hv, if_pos]
      rw [lastVIPIdxAux_no_pvip _ _ h₂]
      simp
  | cons r rs ih =>
      simp only [List.cons_append, lastVIPIdxAux, List.append_eq]
      rw [ih]
      simp only [List.length_cons]
      push_cast
      ring

theorem pvip_decomp (l : List SongRequest) :
    (∀ r ∈ l, (r.status == Status.pending && r.isVIP) = false) ∨
    ∃ l₁ v l₂, l = l₁ ++ v :: l₂ ∧ (v.status == Status.pending && v.isVIP) = true ∧
      ∀ r ∈ l₂, (r.status == Status.pending && r.isVIP) = false := by
  induction l with
  | nil => exact Or.inl (fun r hr => absurd hr (List.not_mem_nil r))
  | cons r rs ih =>
      rcases ih with h | ⟨l₁, v, l₂, rfl, hv, h₂⟩
      · by_cases hr : (r.status == Status.pending && r.isVIP) = true
        · exact Or.inr ⟨[], r, rs, rfl, hr, h⟩
        · refine Or.inl (fun x hx => ?_)
          rcases List.mem_cons.mp hx with rfl | hx
          · cases hb : (x.status == Status.pending && x.isVIP) with
            | false => rfl
            | true => exact absurd hb hr
          · exact h x hx
      · exact Or.inr ⟨r :: l₁, v, l₂, rfl, hv, h₂⟩

/-- Under the ordering invariant, a VIP enqueue — splice at
`lastVIPIndex + 1` — puts the new entry exactly between the pending VIP lane
and the pending non-VIP lane, reordering nothing. -/
theorem pending_insert_vip (l : List SongRequest) (x : SongRequest)
    (hx : (x.status == Status.pending && x.isVIP) = true)
    (hinv : VipFirst (l.filter (fun r => r.status == Status.pending))) :
    (spliceInsert l (lastVIPIndex l + 1).toNat x).filter
        (fun r => r.status == Status.pending)
      = (l.filter (fun r => r.status == Status.pending)).filter (fun r => r.isVIP)
        ++ x :: (l.filter (fun r => r.status == Status.pending)).filter
            (fun r => !r.isVIP) := by
  have hx' := hx
  rw [Bool.and_eq_true] at hx'
  have hxp : (x.status == Status.pending) = true := hx'.1
  have hxv : x.isVIP = true := by simpa using hx'.2
  rcases pvip_decomp l with h | ⟨l₁, v, l₂, rfl, hv, h₂⟩
  · have hidx : lastVIPIndex l = -1 := lastVIPIdxAux_no_pvip 0 (-1) h
    have hnovip : ∀ a ∈ l.filter (fun r => r.status == Status.pending),
        a.isVIP = false := by
      intro a ha
      have haP := (List.mem_filter.mp ha).2
      have hfa := h a (List.mem_filter.mp ha).1
      simpa [haP] using hfa
    have e1 : (l.filter (fun r => r.status == Status.pending)).filter
        (fun r => r.isVIP) = [] :=
      List.filter_eq_nil_iff.mpr (fun a ha => by simp [hnovip a ha])
    have e2 : (l.filter (fun r => r.status == Status.pending)).filter
        (fun r => !r.isVIP) = l.filter (fun r => r.status == Status.pending) :=
      List.filter_eq_self.mpr (fun a ha => by simp [hnovip a ha])
    rw [hidx]
    show (spliceInsert l 0 x).filter (fun r => r.status == Status.pending) = _
    rw [e1, e2]
    simp [spliceInsert, List.filter_cons, hxp]
  · have hv' := hv
    rw [Bool.and_eq_true] at hv'
    have hvP : (v.status == Status.pending) = true := hv'.1
    have hvv : v.isVIP = true := by simpa using hv'.2
    have hidx : lastVIPIndex (l₁ ++ v :: l₂) = l₁.length := by
      have := lastVIPIdxAux_with_last l₁ v l₂ 0 (-1) hv h₂
      simpa [lastVIPIndex] using this
    have hsplice :
        spliceInsert (l₁ ++ v :: l₂) (l₁.length + 1) x = l₁ ++ v :: x :: l₂ := by
      unfold spliceInsert
      rw [show l₁ ++ v :: l₂ = (l₁ ++ [v]) ++ l₂ by simp]
      rw [List.take_left' (by simp), List.drop_left' (by simp)]
      simp
    have hpfil : (l₁ ++ v :: l₂).filter (fun r => r.status == Status.pending)
        = l₁.filter (fun r => r.status == Status.pending)
          ++ v :: l₂.filter (fun r => r.status == Status.pending) := by
      simp [List.filter_append, List.filter_cons, hvP]
    rw [hpfil] at hinv
    have hall₁ : ∀ a ∈ l₁.filter (fun r => r.status == Status.pending),
        a.isVIP = true := by
      intro a ha
      exact (List.pairwise_append.mp hinv).2.2 a ha v (List.mem_cons_self _ _) hvv
    have hall₂ : ∀ a ∈ l₂.filter (fun r => r.status == Status.pending),
        a.isVIP = false := by
      intro a ha
      have haP := (List.mem_filter.mp ha).2
      have hfa := h₂ a (List.mem_of_mem_filter ha)
      simpa [haP] using hfa
    have e1 : (l₁.filter (fun r => r.status == Status.pending)).filter
        (fun r => r.isVIP) = l₁.filter (fun r => r.status == Status.pending) :=
      List.filter_eq_self.mpr (fun a ha => by simp [hall₁ a ha])
    have e2 : (l₂.filter (fun r => r.status == Status.pending)).filter
        (fun r => r.isVIP) = [] :=
      List.filter_eq_nil_iff.mpr (fun a ha => by simp [hall₂ a ha])
    have e3 : (l₁.filter (fun r => r.status == Status.pending)).filter
        (fun r => !r.isVIP) = [] :=
      List.filter_eq_nil_iff.mpr (fun a ha => by simp [hall₁ a ha])
    have e4 : (l₂.filter (fun r => r.status == Status.pending)).filter
        (fun r => !r.isVIP) = l₂.filter (fun r => r.status == Status.pending) :=
      List.filter_eq_self.mpr (fun a ha => by simp [hall₂ a ha])
    rw [hidx]
    have hn : ((l₁.length : Int) + 1).toNat = l₁.length + 1 := by omega
    rw [hn, hsplice, hpfil]
    simp [List.filter_append, List.filter_cons, hvP, hxp, hvv, hxv, e1, e2, e3, e4]

theorem pairwise_of_fst {R : SongRequest → SongRequest → Prop} :
    ∀ {l : List SongRequest}, (∀ a ∈ l, ∀ b, R a b) → l.Pairwise R
  | [], _ => List.Pairwise.nil
  | a :: l, h =>
      List.Pairwise.cons (fun b _ => h a (List.mem_cons_self _ _) b)
        (pairwise_of_fst (fun x hx b => h x (List.mem_cons_of_mem _ hx) b))

theorem pairwise_of_snd {R : SongRequest → SongRequest → Prop} :
    ∀ {l : List SongRequest}, (∀ b ∈ l, ∀ a, R a b) → l.Pairwise R
  | [], _ => List.Pairwise.nil
  | a :: l, h =>
      List.Pairwise.cons (fun b hb => h b (List.mem_cons_of_mem _ hb) a)
        (pairwise_of_snd (fun b hb a' => h b (List.mem_cons_of_mem _ hb) a'))

/-- A VIP block, one entry, then a non-VIP block is lane-ordered. -/
theorem vipFirst_shape {A B : List SongRequest} {x : SongRequest}
    (hA : ∀ a ∈ A, a.isVIP = true) (hB : ∀ b ∈ B, b.isVIP = false) :
    VipFirst (A ++ x :: B) := by
  rw [VipFirst, List.pairwise_append]
  refine ⟨pairwise_of_fst (fun a ha b _ => hA a ha), ?_, fun a ha b _ _ => hA a ha⟩
  refine List.Pairwise.cons (fun b hb hbv => absurd hbv (by simp [hB b hb])) ?_
  exact pairwise_of_snd (fun b hb a hbv => absurd hbv (by simp [hB b hb]))

theorem pending_setStatusFirst_sublist (l : List SongRequest) (id : Nat)
    (st : Status) (hst : (st == Status.pending) = false) :
    List.Sublist
      ((setStatusFirst l id st).filter (fun r => r.status == Status.pending))
      (l.filter (fun r => r.status == Status.pending)) := by
  induction l with
  | nil => exact List.Sublist.refl _
  | cons r rs ih =>
      simp only [setStatusFirst]
      by_cases hid : (r.id == id) = true
      · rw [if_pos hid]
        simp only [List.filter_cons]
        rw [show (({ r with status := st } : SongRequest).status
            == Status.pending) = false from hst]
        by_cases hrP : (r.status == Status.pending) = true
        · rw [if_pos hrP]
          simp only [Bool.false_eq_true, if_false]
          exact List.sublist_cons_self _ _
        · rw [if_neg hrP]
          simp only [Bool.false_eq_true, if_false]
          exact List.Sublist.refl _
      · rw [if_neg hid]
        simp only [List.filter_cons]
        by_cases hrP : (r.status == Status.pending) = true
        · rw [if_pos hrP, if_pos hrP]
          exact List.Sublist.cons₂ r ih
        · rw [if_neg hrP, if_neg hrP]
          exact ih

theorem vipFirst_markPlaying (s : QueueState) (id : Nat)
    (h : VipFirst (getPendingRequests s)) :
    VipFirst (getPendingRequests (markPlaying s id).2) := by
  cases hf : s.requests.find? (fun r => r.id == id) with
  | none => simpa [markPlaying, hf] using h
  | some r =>
      simp only [markPlaying, hf]
      exact h.sublist (pending_setStatusFirst_sublist s.requests id Status.playing rfl)

theorem vipFirst_skipRequest (s : QueueState) (id : Nat)
    (h : VipFirst (getPendingRequests s)) :
    VipFirst (getPendingRequests (skipRequest s id).2) := by
  cases hf : s.requests.find? (fun r => r.id == id) with
  | none => simpa [skipRequest, hf] using h
  | some r =>
      simp only [skipRequest, hf]
      exact h.sublist ((List.filter_sublist _).filter _)

theorem vipFirst_markCompleted (s : QueueState) (id : Nat)
    (h : VipFirst (getPendingRequests s)) :
    VipFirst (getPendingRequests (markCompleted s id).2) := by
  cases hf : s.requests.find? (fun r => r.id == id) with
  | none => simpa [markCompleted, hf] using h
  | some r =>
      simp only [markCompleted, hf]
      exact h.sublist ((List.filter_sublist _).filter _)

theorem vipFirst_addRequest (s : QueueState) (now : Nat) (song : SongInfo)
    (userId username : String) (platform : Platform) (isVIP : Bool)
    (h : VipFirst (getPendingRequests s)) :
    VipFirst
      (getPendingRequests (addRequest s now song userId username platform isVIP).2) := by
  cases isVIP with
  | true =>
      show VipFirst ((spliceInsert s.requests (lastVIPIndex s.requests + 1).toNat
        (⟨s.nextId, song, username, platform, now, Status.pending, true⟩ : SongRequest)).filter
          (fun r => r.status == Status.pending))
      rw [pending_insert_vip s.requests
        (⟨s.nextId, song, username, platform, now, Status.pending, true⟩ : SongRequest) rfl h]
      apply vipFirst_shape
      · intro a ha
        simpa using (List.mem_filter.mp ha).2
      · intro b hb
        simpa using (List.mem_filter.mp hb).2
  | false =>
      show VipFirst ((s.requests ++
        [(⟨s.nextId, song, username, platform, now, Status.pending, false⟩ : SongRequest)]).filter
          (fun r => r.status == Status.pending))
      rw [List.filter_append]
      rw [VipFirst, List.pairwise_append]
      refine ⟨h, ?_, ?_⟩
      · simp [List.filter_cons, List.Pairwise.nil]
      · intro a ha b hb
        simp only [List.filter_cons] at hb
        rw [show ((⟨s.nextId, song, username, platform, now, Status.pending, false⟩ :
            SongRequest).status == Status.pending) = true from rfl] at hb
        simp only [if_pos, List.filter_nil, List.mem_singleton] at hb
        subst hb
        intro hbv
        exact absurd hbv (by simp)

theorem vipFirst_applyQOp (s : QueueState) (now : Nat) (op : QOp)
    (h : VipFirst (getPendingRequests s)) :
    VipFirst (getPendingRequests (applyQOp s now op)) := by
  cases op with
  | add song userId username platform isVIP =>
      exact vipFirst_addRequest s now song userId username platform isVIP h
  | playing id => exact vipFirst_markPlaying s id h
  | complete id => exact vipFirst_markCompleted s id h
  | skip id => exact vipFirst_skipRequest s id h
  | pop =>
      show VipFirst (getPendingRequests (popNextRequest s).2)
      cases hn : getNextRequest s with
      | none => simpa [popNextRequest, hn] using h
      | some next =>
          simp only [popNextRequest, hn]
          exact vipFirst_markPlaying s next.id h
  | clear =>
      show VipFirst (getPendingRequests (clearQueue s).2)
      simp [clearQueue, getPendingRequests, VipFirst]
  | removeUser username platform =>
      show VipFirst (getPendingRequests (removeUserRequest s username platform).2)
      cases hl : (getUserRequests s username platform).getLast? with
      | none => simpa [removeUserRequest, hl] using h
      | some r =>
          simp only [removeUserRequest, hl]
          exact vipFirst_skipRequest s r.id h
  | removeAt i =>
      show VipFirst (getPendingRequests (removePendingAt s i).2)
      cases hl : (getPendingRequests s)[i]? with
      | none => simpa [removePendingAt, hl] using h
      | some r =>
          simp only [removePendingAt, List.get?_eq_getElem?, hl]
          exact vipFirst_skipRequest s r.id h

theorem vipFirst_reachable (s : QueueState) (h : QueueReachable s) :
    VipFirst (getPendingRequests s) := by
  induction h with
  | init maxR cd => exact List.Pairwise.nil
  | step s now op _ ih => exact vipFirst_applyQOp s now op ih

/-- **C1.** In every queue reachable without `reorderQueue`, the pending list
keeps all VIP entries before all non-VIP entries; a further VIP enqueue lands
exactly between the existing pending VIP lane and the pending non-VIP lane
(immediately after the last pending VIP entry, reordering neither lane), and
a non-VIP enqueue lands at the very end — so relative order within each lane
is insertion order. -/
theorem vip_lane_ordering (s : QueueState) (h : QueueReachable s) :
    VipFirst (getPendingRequests s) ∧
    ∀ (now : Nat) (song : SongInfo) (userId username : String) (platform : Platform),
      getPendingRequests (addRequest s now song userId username platform true).2 =
        (getPendingRequests s).filter (fun r => r.isVIP)
          ++ (addRequest s now song userId username platform true).1
            :: (getPendingRequests s).filter (fun r => !r.isVIP) ∧
      getPendingRequests (addRequest s now song userId username platform false).2 =
        getPendingRequests s ++ [(addRequest s now song userId username platform false).1] := by
  have hinv := vipFirst_reachable s h
  refine ⟨hinv, fun now song userId username platform => ⟨?_, ?_⟩⟩
  · exact pending_insert_vip s.requests
      (⟨s.nextId, song, username, platform, now, Status.pending, true⟩ : SongRequest) rfl hinv
  · show (s.requests ++
      [(⟨s.nextId, song, username, platform, now, Status.pending, false⟩ : SongRequest)]).filter
        (fun r => r.status == Status.pending) = _
    rw [List.filter_append]
    rfl

theorem vip_lane_ordering_witness :
    VipFirst (getPendingRequests exQ) ∧
    getPendingRequests (addRequest exQ 5 ⟨"A2", "T2"⟩ "u2" "U2" Platform.twitch true).2 =
      (getPendingRequests exQ).filter (fun r => r.isVIP)
        ++ (addRequest exQ 5 ⟨"A2", "T2"⟩ "u2" "U2" Platform.twitch true).1
          :: (getPendingRequests exQ).filter (fun r => !r.isVIP) := by
  have h := vip_lane_ordering exQ
    (QueueReachable.step (initQueue 3 10) 0
      (QOp.add ⟨"A1", "T1"⟩ "u1" "U1" Platform.twitch false)
      (QueueReachable.init 3 10))
  exact ⟨h.1, (h.2 5 ⟨"A2", "T2"⟩ "u2" "U2" Platform.twitch).1⟩

end RequestBot
